import Mathlib

/-!
Verification development for the `presidio-nl-v2` PDF anonymization /
de-anonymization pipeline.  The Python source is shallowly embedded:

* `src/api/utils/crypto.py` — the AES-GCM envelope (`aes_gcm_encrypt`,
  `aes_gcm_decrypt`).  The AES-GCM primitive supplied by the external
  crypto library is abstracted into a `GCMCore` (a counter-mode keystream
  plus a tag function over key / nonce / associated data / ciphertext);
  every statement about the envelope code is proved for an arbitrary core,
  hence in particular for AES-GCM.
* `src/api/services/text_analyzer.py` — entity dedup and placeholder
  substitution of `ModularTextAnalyzer`.
* `src/api/utils/pdf_xmp.py` — `anonymize_pdf`, `_embed_occurrences_xmp`,
  `extract_annotations`, `process_anonymized_pdf_to_deanonymize`.  PDF
  geometry (the external `pymupdf` library) is abstracted into per-page
  oracles for text search and redaction failure; the JSON codec of the
  Python standard library is abstracted into an invertible printer/parser
  pair for the fixed occurrence schema.

Byte strings are lists of naturals (each byte a value `< 256`; the XOR
algebra below holds for all naturals).  Python text strings that only act
as opaque payloads are likewise modelled as byte lists, since UTF-8
encode/decode round-trips.
-/

namespace PresidioNL

/-- A byte string: `bytes` values from the Python source. -/
abbrev Bytes := List Nat

/-! ### Model of the external AES-GCM primitive (`Crypto.Cipher.AES`, GCM mode)

GCM is counter-mode encryption together with an authentication tag computed
from the key, the nonce, the associated data and the ciphertext.  The block
cipher is abstracted: `keystream key nonce i` is byte `i` of the counter-mode
key stream and `mkTag key nonce header ct` is the tag `digest` returns.
`decrypt_and_verify` recomputes the tag over the same inputs and compares. -/
structure GCMCore where
  keystream : Bytes → Bytes → Nat → Nat
  mkTag : Bytes → Bytes → Bytes → Bytes → Bytes

/-- XOR a byte string with the counter-mode key stream starting at byte
index `i` (`cipher.encrypt` and `cipher.decrypt` of GCM are both exactly
this stream XOR). -/
def ctrXorAux (ks : Nat → Nat) : Nat → Bytes → Bytes
  | _, [] => []
  | i, b :: rest => (b ^^^ ks i) :: ctrXorAux ks (i + 1) rest

/-- Stream-XOR of `data` under `key` and `nonce`. -/
def ctrXor (core : GCMCore) (key nonce data : Bytes) : Bytes :=
  ctrXorAux (core.keystream key nonce) 0 data

/-- `aes_gcm_encrypt` serialises `nonce`, `header`, `ciphertext` and `tag`
base64-encoded into a flat JSON object and `aes_gcm_decrypt` reads them
back; base64 and this flat JSON container are invertible serialisations
from the Python standard library, so the envelope is modelled as the record
of the four byte strings. -/
structure Envelope where
  nonce : Bytes
  header : Bytes
  ciphertext : Bytes
  tag : Bytes
  deriving DecidableEq, Repr

/-- Failure modes of `aes_gcm_decrypt` (`src/api/utils/crypto.py`): the
explicit associated-data check raises `ValueError("AAD mismatch - wrong
header supplied")`, and `decrypt_and_verify` raises `ValueError("MAC check
failed")` when the authentication tag does not verify.  Both are catchable
errors distinct from any successful return. -/
inductive DecryptError where
  | aadMismatch
  | macCheckFailed
  deriving DecidableEq, Repr

/-- Model of `aes_gcm_encrypt(data, key, header=b"header")`
(src/api/utils/crypto.py lines 44-73).  The fresh random nonce drawn by
`AES.new(key, AES.MODE_GCM)` is made an explicit argument;
`cipher.update(header)` feeds the associated data and
`cipher.encrypt_and_digest(data)` yields ciphertext and tag. -/
def aes_gcm_encrypt (core : GCMCore) (data key : Bytes) (header : Bytes) (nonce : Bytes) :
    Envelope :=
  { nonce := nonce
    header := header
    ciphertext := ctrXor core key nonce data
    tag := core.mkTag key nonce header (ctrXor core key nonce data) }

/-- Model of `aes_gcm_decrypt(blob, key, header=b"header")`
(src/api/utils/crypto.py lines 76-101): parse the envelope, fail if the
stored associated data differs from the supplied `header`, then
`decrypt_and_verify`, which recomputes the tag over the associated data and
the stored ciphertext and fails unless it equals the stored tag. -/
def aes_gcm_decrypt (core : GCMCore) (blob : Envelope) (key : Bytes) (header : Bytes) :
    Except DecryptError Bytes :=
  if blob.header ≠ header then .error .aadMismatch
  else if core.mkTag key blob.nonce header blob.ciphertext ≠ blob.tag then
    .error .macCheckFailed
  else .ok (ctrXor core key blob.nonce blob.ciphertext)

/-- Stream-XOR at a fixed start index is an involution. -/
theorem ctrXorAux_involutive (ks : Nat → Nat) :
    ∀ (i : Nat) (data : Bytes), ctrXorAux ks i (ctrXorAux ks i data) = data
  | _, [] => rfl
  | i, b :: rest => by
    simp [ctrXorAux, Nat.xor_cancel_right, ctrXorAux_involutive ks (i + 1) rest]

/-- `ctrXor` is an involution for a fixed key and nonce. -/
theorem ctrXor_involutive (core : GCMCore) (key nonce data : Bytes) :
    ctrXor core key nonce (ctrXor core key nonce data) = data :=
  ctrXorAux_involutive _ 0 data

/-- **C3**: for every byte string `p`, every AES key `k` of length 16, 24 or
32 bytes and every header `h`, `aes_gcm_decrypt(aes_gcm_encrypt(p, k, h), k, h)`
returns exactly `p`.  Proved for every GCM core, hence for AES-GCM. -/
theorem C3_aes_gcm_roundtrip (core : GCMCore) (p key header nonce : Bytes)
    (hkey : key.length = 16 ∨ key.length = 24 ∨ key.length = 32) :
    aes_gcm_decrypt core (aes_gcm_encrypt core p key header nonce) key header =
      .ok p := by
  simp [aes_gcm_encrypt, aes_gcm_decrypt, ctrXor_involutive]

/-- A concrete GCM core used to evaluate the crypto theorems on explicit
inputs (the theorems themselves hold for every core). -/
def demoCore : GCMCore where
  keystream key nonce i := (key.sum + nonce.sum * 7 + i * 3 + 5) % 256
  mkTag key nonce header ct := [(key.sum + nonce.sum + header.sum + ct.sum) % 256, ct.length % 256]

/-- A concrete 16-byte key for witnesses. -/
def demoKey : Bytes := List.replicate 16 7

/-- Witness for C3 at a concrete plaintext, key, header and nonce. -/
theorem C3_aes_gcm_roundtrip_witness :
    aes_gcm_decrypt demoCore (aes_gcm_encrypt demoCore [72, 105] demoKey [3, 4] [9])
      demoKey [3, 4] = .ok [72, 105] :=
  C3_aes_gcm_roundtrip demoCore [72, 105] demoKey [3, 4] [9] (Or.inl (by decide))

/-- **C4**: for every envelope produced by `aes_gcm_encrypt`, (i) mutating
the tag makes `aes_gcm_decrypt` fail with the authentication error,
unconditionally; (ii) supplying associated data different from the value
used at encryption fails with the (distinct) AAD-mismatch error; (iii)
mutating the ciphertext fails with the authentication error whenever the
recomputed tag of the mutated ciphertext differs from the stored tag (for
AES-GCM this holds for every single-byte change outside the degenerate
weak-key cases); and (iv) decryption never silently returns altered
plaintext: any successful decryption implies the stored associated data
matched and the stored tag authenticates exactly the ciphertext whose
stream decryption was returned. -/
theorem C4_tamper_detection (core : GCMCore) (p key header nonce : Bytes) :
    (∀ tag2, tag2 ≠ (aes_gcm_encrypt core p key header nonce).tag →
      aes_gcm_decrypt core { aes_gcm_encrypt core p key header nonce with tag := tag2 }
        key header = .error .macCheckFailed) ∧
    (∀ header2, header2 ≠ header →
      aes_gcm_decrypt core (aes_gcm_encrypt core p key header nonce) key header2 =
        .error .aadMismatch) ∧
    (∀ ct2, core.mkTag key nonce header ct2 ≠ (aes_gcm_encrypt core p key header nonce).tag →
      aes_gcm_decrypt core { aes_gcm_encrypt core p key header nonce with ciphertext := ct2 }
        key header = .error .macCheckFailed) ∧
    (∀ (blob : Envelope) (key2 header2 m : Bytes),
      aes_gcm_decrypt core blob key2 header2 = .ok m →
      blob.header = header2 ∧
        core.mkTag key2 blob.nonce header2 blob.ciphertext = blob.tag ∧
        m = ctrXor core key2 blob.nonce blob.ciphertext) := by
  refine ⟨?_, ?_, ?_, ?_⟩
  · intro tag2 htag
    simp only [aes_gcm_encrypt] at htag
    simp [aes_gcm_decrypt, aes_gcm_encrypt, Ne.symm htag]
  · intro header2 hhd
    simp [aes_gcm_decrypt, aes_gcm_encrypt, Ne.symm hhd]
  · intro ct2 hct
    simp only [aes_gcm_encrypt] at hct
    simp [aes_gcm_decrypt, aes_gcm_encrypt, hct]
  · intro blob key2 header2 m hok
    simp only [aes_gcm_decrypt] at hok
    split at hok
    · exact absurd hok (by simp)
    · rename_i h1
      split at hok
      · exact absurd hok (by simp)
      · rename_i h2
        refine ⟨not_not.mp h1, not_not.mp h2, ?_⟩
        simpa using hok.symm

/-- Witness for C4: each tampering mode evaluated on a concrete envelope. -/
theorem C4_tamper_detection_witness :
    aes_gcm_decrypt demoCore
        { aes_gcm_encrypt demoCore [5, 6] demoKey [3] [1] with tag := [0, 0] }
        demoKey [3] = .error .macCheckFailed ∧
    aes_gcm_decrypt demoCore (aes_gcm_encrypt demoCore [5, 6] demoKey [3] [1])
        demoKey [4] = .error .aadMismatch ∧
    aes_gcm_decrypt demoCore
        { aes_gcm_encrypt demoCore [5, 6] demoKey [3] [1] with ciphertext := [8, 8, 8] }
        demoKey [3] = .error .macCheckFailed := by
  refine ⟨?_, ?_, ?_⟩
  · exact (C4_tamper_detection demoCore [5, 6] demoKey [3] [1]).1 [0, 0] (by decide)
  · exact (C4_tamper_detection demoCore [5, 6] demoKey [3] [1]).2.1 [4] (by decide)
  · exact (C4_tamper_detection demoCore [5, 6] demoKey [3] [1]).2.2.1 [8, 8, 8] (by decide)

/-! ### Entity Resolution Engine (`src/api/services/text_analyzer.py`) -/

/-- One detected entity span: the dict shape `{"entity_type", "start",
"end", "score", "text"}` passed between the detectors and the analyzer.
The `end` key is named `stop` here because `end` is reserved in Lean. -/
structure Span where
  entity_type : String
  start : Nat
  stop : Nat
  score : Rat
  text : List Char
  deriving DecidableEq, Repr

/-- Python slice `text[a:b]` on a character list (for `0 ≤ a ≤ b`). -/
def sliceStr (text : List Char) (a b : Nat) : List Char :=
  (text.take b).drop a

/-- A Presidio `RecognizerResult` as returned by the pattern analyzer:
entity type, half-open offsets and a confidence score. -/
structure RecognizerResult where
  entity_type : String
  start : Nat
  stop : Nat
  score : Rat
  deriving DecidableEq, Repr

/-- The dict built from one pattern result in `analyze_text`:
`{"entity_type": r.entity_type, "start": r.start, "end": r.end,
"score": r.score, "text": text[r.start:r.end]}`. -/
def toPatternDict (text : List Char) (r : RecognizerResult) : Span :=
  { entity_type := r.entity_type
    start := r.start
    stop := r.stop
    score := r.score
    text := sliceStr text r.start r.stop }

/-- `settings.DEFAULT_ENTITIES` (src/api/config.py). -/
def DEFAULT_ENTITIES : List String :=
  ["PERSON", "LOCATION", "PHONE_NUMBER", "EMAIL", "ORGANIZATION", "IBAN", "ADDRESS"]

/-- The deduplication key `(r["start"], r["end"], r["entity_type"])`. -/
def spanKey (s : Span) : Nat × Nat × String :=
  (s.start, s.stop, s.entity_type)

/-- The `seen`-set loop of `analyze_text`: walk the combined results in
order and keep a result only if its key has not been seen yet. -/
def dedupFirstAux (seen : List (Nat × Nat × String)) : List Span → List Span
  | [] => []
  | r :: rest =>
    if spanKey r ∈ seen then dedupFirstAux seen rest
    else r :: dedupFirstAux (spanKey r :: seen) rest

/-- Deduplication starting from an empty `seen` set. -/
def dedupFirst (l : List Span) : List Span :=
  dedupFirstAux [] l

/-- `all_results` right before deduplication in `analyze_text`: NLP-engine
results concatenated with the converted pattern results, then filtered by
the requested entity types when a truthy, non-default filter list was given
(`if entities and entities != settings.DEFAULT_ENTITIES`).  The two
detector calls are external collaborators (the NER engine and the Presidio
pattern analyzer), so their result lists are the inputs `nlp_results` and
`pattern_results`; the `except` branch that degrades to zero pattern
results is the instance `pattern_results = []`. -/
def analyzer_candidates (text : List Char) (entities : Option (List String))
    (nlp_results : List Span) (pattern_results : List RecognizerResult) : List Span :=
  let all_results := nlp_results ++ pattern_results.map (toPatternDict text)
  match entities with
  | none => all_results
  | some es =>
    if es ≠ [] ∧ es ≠ DEFAULT_ENTITIES then
      all_results.filter (fun r => decide (r.entity_type ∈ es))
    else all_results

/-- Model of `ModularTextAnalyzer.analyze_text` (text_analyzer.py lines
93-155): combine NER and pattern results, filter, and deduplicate on
`(start, end, entity_type)` keeping the first occurrence encountered. -/
def analyze_text (text : List Char) (entities : Option (List String))
    (nlp_results : List Span) (pattern_results : List RecognizerResult) : List Span :=
  dedupFirst (analyzer_candidates text entities nlp_results pattern_results)

/-- Each span kept by the dedup loop has a key outside `seen` and is the
first element of the input list carrying its key. -/
theorem dedupFirstAux_mem_find :
    ∀ (seen : List (Nat × Nat × String)) (l : List Span) (r : Span),
      r ∈ dedupFirstAux seen l →
      spanKey r ∉ seen ∧ l.find? (fun x => decide (spanKey x = spanKey r)) = some r := by
  intro seen l
  induction l generalizing seen with
  | nil => intro r hr; simp [dedupFirstAux] at hr
  | cons a rest ih =>
    intro r hr
    simp only [dedupFirstAux] at hr
    by_cases ha : spanKey a ∈ seen
    · rw [if_pos ha] at hr
      obtain ⟨hns, hfind⟩ := ih seen r hr
      have hne : spanKey a ≠ spanKey r := fun h => hns (h ▸ ha)
      exact ⟨hns, by simp [List.find?_cons, hne, hfind]⟩
    · rw [if_neg ha] at hr
      rcases List.mem_cons.mp hr with h | h
      · subst h
        exact ⟨ha, by simp [List.find?_cons]⟩
      · obtain ⟨hns, hfind⟩ := ih _ r h
        have hna : spanKey r ∉ seen := fun hc => hns (List.mem_cons_of_mem _ hc)
        have hne : spanKey a ≠ spanKey r := fun hc => hns (hc ▸ List.mem_cons_self _ _)
        exact ⟨hna, by simp [List.find?_cons, hne, hfind]⟩

/-- Every input span's key survives deduplication (if unseen on entry). -/
theorem dedupFirstAux_covers :
    ∀ (seen : List (Nat × Nat × String)) (l : List Span) (r : Span), r ∈ l →
      spanKey r ∈ seen ∨ ∃ u ∈ dedupFirstAux seen l, spanKey u = spanKey r := by
  intro seen l
  induction l generalizing seen with
  | nil => intro r hr; simp at hr
  | cons a rest ih =>
    intro r hr
    simp only [dedupFirstAux]
    rcases List.mem_cons.mp hr with h | h
    · subst h
      by_cases ha : spanKey r ∈ seen
      · exact Or.inl ha
      · exact Or.inr ⟨r, by simp [if_neg ha]⟩
    · by_cases ha : spanKey a ∈ seen
      · rcases ih seen r h with hs | ⟨u, hu, hk⟩
        · exact Or.inl hs
        · exact Or.inr ⟨u, by simp [if_pos ha, hu], hk⟩
      · rcases ih (spanKey a :: seen) r h with hs | ⟨u, hu, hk⟩
        · rcases List.mem_cons.mp hs with hs | hs
          · exact Or.inr ⟨a, by simp [if_neg ha], hs.symm⟩
          · exact Or.inl hs
        · exact Or.inr ⟨u, by simp [if_neg ha, hu], hk⟩

/-- The keys of the deduplicated list are pairwise distinct. -/
theorem dedupFirstAux_keys_nodup :
    ∀ (seen : List (Nat × Nat × String)) (l : List Span),
      ((dedupFirstAux seen l).map spanKey).Nodup := by
  intro seen l
  induction l generalizing seen with
  | nil => simp [dedupFirstAux]
  | cons a rest ih =>
    simp only [dedupFirstAux]
    by_cases ha : spanKey a ∈ seen
    · simpa [if_pos ha] using ih seen
    · rw [if_neg ha]
      refine List.nodup_cons.mpr ⟨?_, ih _⟩
      intro hc
      rcases List.mem_map.mp hc with ⟨u, hu, hk⟩
      exact (dedupFirstAux_mem_find _ _ _ hu).1 (hk ▸ List.mem_cons_self _ _)

/-- The candidate list splits into the filtered NER part and the filtered
pattern part. -/
theorem analyzer_candidates_append (text : List Char) (entities : Option (List String))
    (nlp_results : List Span) (pattern_results : List RecognizerResult) :
    analyzer_candidates text entities nlp_results pattern_results =
      analyzer_candidates text entities nlp_results [] ++
        analyzer_candidates text entities [] pattern_results := by
  cases entities with
  | none => simp [analyzer_candidates]
  | some es =>
    by_cases h : es ≠ [] ∧ es ≠ DEFAULT_ENTITIES
    · simp [analyzer_candidates, if_pos h, List.filter_append]
    · simp [analyzer_candidates, if_neg h]

/-- **C8**: the span list returned by `analyze_text` has (i) pairwise
distinct `(start, end, entity_type)` keys; (ii) each returned span is the
first element of the filtered NER-then-pattern concatenation carrying its
key; (iii) every candidate key is represented in the output; and (iv) if
any (filtered) NER span carries the same key as a returned span, the
returned span is itself an NER span — NER wins ties and its score is the
one retained. -/
theorem C8_dedup_keeps_first (text : List Char) (entities : Option (List String))
    (nlp_results : List Span) (pattern_results : List RecognizerResult) :
    ((analyze_text text entities nlp_results pattern_results).map spanKey).Nodup ∧
    (∀ r ∈ analyze_text text entities nlp_results pattern_results,
      (analyzer_candidates text entities nlp_results pattern_results).find?
        (fun x => decide (spanKey x = spanKey r)) = some r) ∧
    (∀ r ∈ analyzer_candidates text entities nlp_results pattern_results,
      ∃ u ∈ analyze_text text entities nlp_results pattern_results,
        spanKey u = spanKey r) ∧
    (∀ r ∈ analyze_text text entities nlp_results pattern_results,
      ∀ x ∈ analyzer_candidates text entities nlp_results [],
        spanKey x = spanKey r →
          r ∈ analyzer_candidates text entities nlp_results []) := by
  refine ⟨dedupFirstAux_keys_nodup _ _, ?_, ?_, ?_⟩
  · intro r hr
    exact (dedupFirstAux_mem_find [] _ r hr).2
  · intro r hr
    rcases dedupFirstAux_covers [] _ r hr with hs | h
    · simp at hs
    · exact h
  · intro r hr x hx hk
    have hfind := (dedupFirstAux_mem_find [] _ r hr).2
    rw [analyzer_candidates_append, List.find?_append] at hfind
    have hx_match : (analyzer_candidates text entities nlp_results []).find?
        (fun x => decide (spanKey x = spanKey r)) ≠ none := by
      intro hnone
      have := List.find?_eq_none.mp hnone x hx
      simp [hk] at this
    rcases Option.ne_none_iff_exists.mp hx_match with ⟨y, hy⟩
    rw [← hy] at hfind
    simp only [Option.or] at hfind
    have hyr : y = r := Option.some.inj hfind
    exact hyr ▸ List.mem_of_find?_eq_some hy.symm

/-- A concrete NER span used by the analyzer witnesses. -/
def demoNlpSpan : Span :=
  { entity_type := "PERSON", start := 0, stop := 2, score := 1, text := ['a', 'b'] }

/-- A concrete pattern result carrying the same key as `demoNlpSpan` but a
different score. -/
def demoPatResult : RecognizerResult :=
  { entity_type := "PERSON", start := 0, stop := 2, score := 0 }

/-- Witness for C8: on a tie between an NER span and a pattern span with the
identical key, the single returned span is the NER one (score retained). -/
theorem C8_dedup_keeps_first_witness :
    ((analyze_text ['a', 'b'] none [demoNlpSpan] [demoPatResult]).map spanKey).Nodup ∧
    (analyzer_candidates ['a', 'b'] none [demoNlpSpan] [demoPatResult]).find?
        (fun x => decide (spanKey x = spanKey demoNlpSpan)) = some demoNlpSpan := by
  constructor
  · exact (C8_dedup_keeps_first ['a', 'b'] none [demoNlpSpan] [demoPatResult]).1
  · exact (C8_dedup_keeps_first ['a', 'b'] none [demoNlpSpan] [demoPatResult]).2.1
      demoNlpSpan (by decide)

/-- The placeholder `f"<{ent['entity_type']}>"`. -/
def placeholder (s : Span) : List Char :=
  '<' :: s.entity_type.toList ++ ['>']

/-- One substitution step of `anonymize_text`:
`anonymized[:ent["start"]] + placeholder + anonymized[ent["end"]:]`. -/
def substOne (anonymized : List Char) (ent : Span) : List Char :=
  anonymized.take ent.start ++ placeholder ent ++ anonymized.drop ent.stop

/-- Model of `ModularTextAnalyzer.anonymize_text` (text_analyzer.py lines
157-184): run `analyze_text`, sort its results by `start` descending
(Python `sorted(..., reverse=True)` is a stable descending sort, which
`List.mergeSort` with the reversed comparison also is) and fold the
placeholder substitution over them. -/
def anonymize_text (text : List Char) (entities : Option (List String))
    (nlp_results : List Span) (pattern_results : List RecognizerResult) : List Char :=
  let results := analyze_text text entities nlp_results pattern_results
  let sorted_results := results.mergeSort (fun a b => decide (b.start ≤ a.start))
  sorted_results.foldl substOne text

/-- `chainb lo len spans`: the spans are listed in ascending order, pairwise
non-overlapping (`stop ≤` next `start`), each valid (`start < stop`), lie
inside a text of length `len`, and start at or after `lo`. -/
def chainb (lo len : Nat) : List Span → Bool
  | [] => true
  | s :: rest =>
    decide (lo ≤ s.start) && decide (s.start < s.stop) && decide (s.stop ≤ len) &&
      chainb s.stop len rest

/-- The intended result of substituting pairwise non-overlapping spans:
the untouched text between consecutive spans interleaved with the
placeholders (`pos` is the end of the previously emitted segment). -/
def interleave (text : List Char) : Nat → List Span → List Char
  | pos, [] => text.drop pos
  | pos, s :: rest =>
    (text.take s.start).drop pos ++ placeholder s ++ interleave text s.stop rest

/-- Lowering the left bound preserves a chain. -/
theorem chainb_mono (len : Nat) :
    ∀ (l : List Span) (lo lo2 : Nat), chainb lo len l = true → lo2 ≤ lo →
      chainb lo2 len l = true := by
  intro l
  cases l with
  | nil => intro lo lo2 h _; simp [chainb]
  | cons s rest =>
    intro lo lo2 h hle
    simp only [chainb, Bool.and_eq_true, decide_eq_true_eq] at h ⊢
    exact ⟨⟨⟨Nat.le_trans hle h.1.1.1, h.1.1.2⟩, h.1.2⟩, h.2⟩

/-- All spans of a chain start at or after the left bound. -/
theorem chainb_le_start (len : Nat) :
    ∀ (l : List Span) (lo : Nat), chainb lo len l = true →
      ∀ x ∈ l, lo ≤ x.start := by
  intro l
  induction l with
  | nil => intro lo _ x hx; simp at hx
  | cons s rest ih =>
    intro lo h x hx
    simp only [chainb, Bool.and_eq_true, decide_eq_true_eq] at h
    rcases List.mem_cons.mp hx with hx | hx
    · exact hx ▸ h.1.1.1
    · exact Nat.le_trans (Nat.le_trans h.1.1.1 (Nat.le_of_lt h.1.1.2))
        (ih s.stop h.2 x hx)

/-- Chained spans have strictly increasing starts. -/
theorem chainb_pairwise (len : Nat) :
    ∀ (l : List Span) (lo : Nat), chainb lo len l = true →
      l.Pairwise (fun a b => a.start < b.start) := by
  intro l
  induction l with
  | nil => intro lo _; simp
  | cons s rest ih =>
    intro lo h
    simp only [chainb, Bool.and_eq_true, decide_eq_true_eq] at h
    refine List.pairwise_cons.mpr ⟨?_, ih _ h.2⟩
    intro x hx
    exact Nat.lt_of_lt_of_le h.1.1.2 (chainb_le_start len rest _ h.2 x hx)

/-- Folding the substitution right-to-left over an ascending chain of
non-overlapping spans produces exactly the interleaving of untouched
segments and placeholders: descending-start processing keeps every earlier
offset valid. -/
theorem foldr_substOne_interleave (text : List Char) :
    ∀ (asc : List Span), chainb 0 text.length asc = true →
      asc.foldr (fun s acc => substOne acc s) text = interleave text 0 asc := by
  intro asc
  induction asc with
  | nil => intro _; simp [interleave]
  | cons s rest ih =>
    intro h
    simp only [chainb, Bool.and_eq_true, decide_eq_true_eq] at h
    obtain ⟨⟨⟨-, h2⟩, h3⟩, h4⟩ := h
    have hrest0 : chainb 0 text.length rest = true :=
      chainb_mono text.length rest s.stop 0 h4 (Nat.zero_le _)
    rw [List.foldr_cons, ih hrest0]
    cases rest with
    | nil => simp [interleave, substOne]
    | cons s2 rest2 =>
      simp only [chainb, Bool.and_eq_true, decide_eq_true_eq] at h4
      obtain ⟨⟨⟨g1, g2⟩, g3⟩, g4⟩ := h4
      have hlen1 : s.start ≤ (List.take s2.start text).length := by
        simp only [List.length_take]
        exact le_min (Nat.le_trans (Nat.le_of_lt h2) g1)
          (Nat.le_trans (Nat.le_of_lt h2) h3)
      have hlen2 : s.stop ≤ (List.take s2.start text).length := by
        simp only [List.length_take]
        exact le_min g1 h3
      simp only [interleave, substOne, List.drop_zero, List.append_assoc]
      rw [List.take_append_of_le_length hlen1, List.take_take,
        min_eq_left (Nat.le_trans (Nat.le_of_lt h2) g1),
        List.drop_append_of_le_length hlen2]

/-- A permutation that is weakly descending is equal to a strictly
descending permutation of itself. -/
theorem perm_sorted_desc_unique :
    ∀ (l2 l1 : List Span), l1.Perm l2 →
      l1.Pairwise (fun a b => b.start ≤ a.start) →
      l2.Pairwise (fun a b => b.start < a.start) → l1 = l2 := by
  intro l2
  induction l2 with
  | nil => intro l1 hp _ _; exact hp.eq_nil
  | cons b t2 ih =>
    intro l1 hp hs1 hs2
    cases l1 with
    | nil => exact absurd hp.symm.eq_nil (by simp)
    | cons a t1 =>
      have hab : a = b := by
        have hbmem : b ∈ a :: t1 := hp.symm.subset (List.mem_cons_self _ _)
        have hamem : a ∈ b :: t2 := hp.subset (List.mem_cons_self _ _)
        rcases List.mem_cons.mp hbmem with h | h
        · exact h.symm
        · rcases List.mem_cons.mp hamem with g | g
          · exact g
          · have h1 : b.start ≤ a.start := (List.pairwise_cons.mp hs1).1 b h
            have h2 : a.start < b.start := (List.pairwise_cons.mp hs2).1 a g
            exact absurd (Nat.lt_of_le_of_lt h1 h2) (Nat.lt_irrefl _)
      subst hab
      have ht : t1.Perm t2 := hp.cons_inv
      rw [ih t1 ht (List.pairwise_cons.mp hs1).2 (List.pairwise_cons.mp hs2).2]

/-- **C9**: `anonymize_text` substitutes the spans returned by the
analysis in descending order of `start`; when those spans are pairwise
non-overlapping (i.e. a permutation of an ascending chain `asc`), the
output is exactly the original text with each span's substring
`text[start:end]` replaced by `<entity_type>` — the interleaving of the
untouched segments with the placeholders, so no span's text survives into
the output except where it also occurs outside the spans. -/
theorem C9_anonymize_text_substitution (text : List Char)
    (entities : Option (List String)) (nlp_results : List Span)
    (pattern_results : List RecognizerResult) (asc : List Span)
    (hperm : (analyze_text text entities nlp_results pattern_results).Perm asc)
    (hchain : chainb 0 text.length asc = true) :
    anonymize_text text entities nlp_results pattern_results =
      interleave text 0 asc := by
  have htotal : ∀ (a b : Span),
      (decide (b.start ≤ a.start) || decide (a.start ≤ b.start)) = true := by
    intro a b
    rcases Nat.le_total b.start a.start with h | h <;> simp [h]
  have htrans : ∀ (a b c : Span), decide (b.start ≤ a.start) = true →
      decide (c.start ≤ b.start) = true → decide (c.start ≤ a.start) = true := by
    intro a b c h1 h2
    simp only [decide_eq_true_eq] at h1 h2 ⊢
    exact Nat.le_trans h2 h1
  set results := analyze_text text entities nlp_results pattern_results with hres
  set M := results.mergeSort (fun a b => decide (b.start ≤ a.start)) with hM
  have hMperm : M.Perm results := List.mergeSort_perm _ _
  have hMsorted : M.Pairwise (fun a b => b.start ≤ a.start) := by
    have := List.sorted_mergeSort htrans htotal results
    exact (hM ▸ this).imp (fun h => of_decide_eq_true h)
  have hascrev : (asc.reverse).Pairwise (fun a b => b.start < a.start) := by
    rw [List.pairwise_reverse]
    exact chainb_pairwise text.length asc 0 hchain
  have hMrev : M.Perm asc.reverse :=
    (hMperm.trans hperm).trans (List.reverse_perm asc).symm
  have hMeq : M = asc.reverse := perm_sorted_desc_unique _ _ hMrev hMsorted hascrev
  show M.foldl substOne text = interleave text 0 asc
  rw [hMeq, List.foldl_reverse]
  exact foldr_substOne_interleave text asc hchain

/-- Witness for C9: two non-overlapping spans in `"ab cd"` are replaced by
their placeholders. -/
theorem C9_anonymize_text_substitution_witness :
    anonymize_text "ab cd".toList none
        [demoNlpSpan,
         { entity_type := "IBAN", start := 3, stop := 5, score := 1,
           text := ['c', 'd'] }] [] =
      interleave "ab cd".toList 0
        [demoNlpSpan,
         { entity_type := "IBAN", start := 3, stop := 5, score := 1,
           text := ['c', 'd'] }] :=
  C9_anonymize_text_substitution "ab cd".toList none
    [demoNlpSpan,
     { entity_type := "IBAN", start := 3, stop := 5, score := 1, text := ['c', 'd'] }]
    [] _ (by decide) (by decide)

/-! ### PDF Redaction Engine (`src/api/utils/pdf_xmp.py`, `anonymize_pdf`)

The external `pymupdf` document is abstracted into per-page oracles: a page
is queried for the rectangles matching a target string and mutates as
redactions are applied, so both oracles receive the list of redactions
applied to that page so far. -/

/-- An axis-aligned rectangle (pymupdf `Rect`): coordinates are rationals
standing for the page-space floats, which are only carried around, never
computed with. -/
structure Rect where
  x0 : Rat
  y0 : Rat
  x1 : Rat
  y1 : Rat
  deriving DecidableEq, Repr

/-- `r` lies inside the bounds `b`. -/
def rectInside (r b : Rect) : Prop :=
  b.x0 ≤ r.x0 ∧ b.y0 ≤ r.y0 ∧ r.x1 ≤ b.x1 ∧ r.y1 ≤ b.y1

instance (r b : Rect) : Decidable (rectInside r b) := by
  unfold rectInside; infer_instance

/-- One page: `search hist target` models `page.search_for(target)` on the
text layer after the redactions `hist` have been applied;
`redactionFails hist r` models `page.add_redact_annot`/`page.apply_redactions`
raising for that match; `bounds` is the page rectangle.  Font-style
introspection (`extract_font_details`) only affects the painted mask's
size and is not modelled. -/
structure PageModel where
  search : List (Rect × String) → String → List Rect
  redactionFails : List (Rect × String) → Rect → Bool
  bounds : Rect

/-- The external SHA-256 primitive of `hashlib`: `digest` models
`hashlib.sha256(x).digest()` (used to derive the AEAD key) and `hexdigest`
models `fingerprint_sha256` (the 64-hex-char key fingerprint). -/
structure HashModel where
  digest : Bytes → Bytes
  hexdigest : Bytes → String

/-- One `_Occurrence` dict as built by `anonymize_pdf`: the string id
`f"ann{n}"` is kept as the numeric counter `n`. -/
structure Occurrence where
  id : Nat
  page : Nat
  rect : Rect
  entity_type : String
  entity_mask : String
  encrypted_entity : Envelope
  key_fingerprint : String
  deriving DecidableEq, Repr

/-- `_DEFAULT_ENTITY_MASK` (pdf_xmp.py lines 32-37). -/
def DEFAULT_ENTITY_MASK : List (String × String) :=
  [("person", "[PERSON]"), ("iban", "[IBAN]"), ("email", "[EMAIL]"), ("phone", "[PHONE]")]

/-- Dictionary lookup on an association list (later entries shadow earlier
ones, as in a Python dict built in insertion order with overrides applied
last; here lookup order models `{**_DEFAULT_ENTITY_MASK, **entity_masks}`
by trying the overrides first). -/
def dictGet (l : List (String × String)) (k : String) : Option String :=
  (l.find? (fun p => decide (p.1 = k))).map Prod.snd

/-- `masks.get(entity_type, f"[{entity_type.upper()}]")`. -/
def maskFor (entity_masks : List (String × String)) (entity_type : String) : String :=
  match dictGet entity_masks entity_type with
  | some m => m
  | none =>
    match dictGet DEFAULT_ENTITY_MASK entity_type with
    | some m => m
    | none => "[" ++ entity_type.toUpper ++ "]"

/-- UTF-8 encoding of one character. -/
def charUtf8 (c : Char) : Bytes :=
  let n := c.toNat
  if n < 0x80 then [n]
  else if n < 0x800 then
    [0xC0 ||| (n >>> 6), 0x80 ||| (n &&& 0x3F)]
  else if n < 0x10000 then
    [0xE0 ||| (n >>> 12), 0x80 ||| ((n >>> 6) &&& 0x3F), 0x80 ||| (n &&& 0x3F)]
  else
    [0xF0 ||| (n >>> 18), 0x80 ||| ((n >>> 12) &&& 0x3F),
     0x80 ||| ((n >>> 6) &&& 0x3F), 0x80 ||| (n &&& 0x3F)]

/-- UTF-8 encoding of a Python string (`target.encode("utf-8")`). -/
def utf8Bytes (s : String) : Bytes :=
  (s.toList.map charUtf8).flatten

/-- The fixed associated data `b"header"` used by `encrypt_entity` and
`decrypt_entity` (the default argument of the crypto helpers). -/
def headerBytes : Bytes := [104, 101, 97, 100, 101, 114]

/-- The inner loop of `anonymize_pdf` over the matches of one target on one
page: for each rectangle, append the occurrence record (built *before* the
redaction attempt, "so coordinates refer to original"), then try the
redaction; on failure log and continue, leaving the page unchanged.
Returns the records, the page's redaction history and the id counter. -/
def processMatches (core : GCMCore) (hash : HashModel) (private_key : Bytes)
    (hashed_key : Bytes) (nonces : Nat → Bytes) (entity_type mask : String)
    (target : String) (page : PageModel) (pageIdx : Nat) :
    List Rect → List (Rect × String) → Nat →
      List Occurrence × List (Rect × String) × Nat
  | [], hist, ctr => ([], hist, ctr)
  | r :: rest, hist, ctr =>
    let occ : Occurrence :=
      { id := ctr
        page := pageIdx + 1
        rect := r
        entity_type := entity_type
        entity_mask := mask
        encrypted_entity :=
          aes_gcm_encrypt core (utf8Bytes target) hashed_key headerBytes (nonces ctr)
        key_fingerprint := hash.hexdigest private_key }
    let hist2 := if page.redactionFails hist r then hist else hist ++ [(r, mask)]
    let step := processMatches core hash private_key hashed_key nonces entity_type mask
      target page pageIdx rest hist2 (ctr + 1)
    (occ :: step.1, step.2)

/-- The middle loop of `anonymize_pdf`: for one mapping entry, visit every
page in document order; the match rectangles are computed once per page
before its inner loop. -/
def processPages (core : GCMCore) (hash : HashModel) (private_key : Bytes)
    (hashed_key : Bytes) (nonces : Nat → Bytes) (entity_type mask : String)
    (target : String) :
    List (PageModel × List (Rect × String)) → Nat → Nat →
      List Occurrence × List (PageModel × List (Rect × String)) × Nat
  | [], _, ctr => ([], [], ctr)
  | (page, hist) :: prest, pageIdx, ctr =>
    let rects := page.search hist target
    let step1 := processMatches core hash private_key hashed_key nonces entity_type mask
      target page pageIdx rects hist ctr
    let step2 := processPages core hash private_key hashed_key nonces entity_type mask
      target prest (pageIdx + 1) step1.2.2
    (step1.1 ++ step2.1, (page, step1.2.1) :: step2.2.1, step2.2.2)

/-- The outer loop of `anonymize_pdf` over the replacement mapping entries
(in insertion order). -/
def processReplacements (core : GCMCore) (hash : HashModel) (private_key : Bytes)
    (hashed_key : Bytes) (nonces : Nat → Bytes) (entity_masks : List (String × String)) :
    List (String × String) → List (PageModel × List (Rect × String)) → Nat →
      List Occurrence × List (PageModel × List (Rect × String)) × Nat
  | [], pairs, ctr => ([], pairs, ctr)
  | (target, entity_type) :: rrest, pairs, ctr =>
    let mask := maskFor entity_masks entity_type
    let step1 := processPages core hash private_key hashed_key nonces entity_type mask
      target pairs 0 ctr
    let step2 := processReplacements core hash private_key hashed_key nonces entity_masks
      rrest step1.2.1 step1.2.2
    (step1.1 ++ step2.1, step2.2)

/-- Model of `anonymize_pdf` (pdf_xmp.py lines 332-417): derive the AEAD
key by hashing the private key, walk mapping entries / pages / matches,
and return the occurrence list together with the final per-page redaction
histories (the physically applied redactions).  The trailing
`doc.save` and `_embed_occurrences_xmp(output_path, occurrences)` steps
are modelled by the codec functions below. -/
def anonymize_pdf (core : GCMCore) (hash : HashModel) (doc : List PageModel)
    (replacements : List (String × String)) (private_key : Bytes)
    (entity_masks : List (String × String)) (nonces : Nat → Bytes) :
    List Occurrence × List (PageModel × List (Rect × String)) :=
  let hashed_key := hash.digest private_key
  let res := processReplacements core hash private_key hashed_key nonces entity_masks
    replacements (doc.map (fun p => (p, []))) 0
  (res.1, res.2.1)

section RedactionLemmas

variable (core : GCMCore) (hash : HashModel) (private_key hashed_key : Bytes)
  (nonces : Nat → Bytes) (entity_type mask target : String)
  (entity_masks : List (String × String))

/-- One record is appended per match rectangle, whether or not the
redaction attempt succeeds. -/
theorem processMatches_length (page : PageModel) (pageIdx : Nat) :
    ∀ (rects : List Rect) (hist : List (Rect × String)) (ctr : Nat),
      (processMatches core hash private_key hashed_key nonces entity_type mask
        target page pageIdx rects hist ctr).1.length = rects.length := by
  intro rects
  induction rects with
  | nil => intro hist ctr; simp [processMatches]
  | cons r rest ih => intro hist ctr; simp [processMatches, ih]

/-- Every record built by the inner loop carries one of the match
rectangles and the 1-based index of its page. -/
theorem processMatches_mem (page : PageModel) (pageIdx : Nat) :
    ∀ (rects : List Rect) (hist : List (Rect × String)) (ctr : Nat) (occ : Occurrence),
      occ ∈ (processMatches core hash private_key hashed_key nonces entity_type mask
        target page pageIdx rects hist ctr).1 →
      occ.rect ∈ rects ∧ occ.page = pageIdx + 1 := by
  intro rects
  induction rects with
  | nil => intro hist ctr occ h; simp [processMatches] at h
  | cons r rest ih =>
    intro hist ctr occ h
    simp only [processMatches, List.mem_cons] at h
    rcases h with h | h
    · subst h; exact ⟨List.mem_cons_self _ _, rfl⟩
    · obtain ⟨h1, h2⟩ := ih _ _ occ h
      exact ⟨List.mem_cons_of_mem _ h1, h2⟩

/-- The page loop never changes which pages make up the document. -/
theorem processPages_fst_pages :
    ∀ (pairs : List (PageModel × List (Rect × String))) (pageIdx ctr : Nat),
      ((processPages core hash private_key hashed_key nonces entity_type mask
        target pairs pageIdx ctr).2.1).map Prod.fst = pairs.map Prod.fst := by
  intro pairs
  induction pairs with
  | nil => intro pageIdx ctr; simp [processPages]
  | cons pr prest ih =>
    intro pageIdx ctr
    obtain ⟨page, hist⟩ := pr
    simp [processPages, ih]

/-- If every page search returns at most `M` rectangles, one mapping entry
contributes at most `pages × M` records. -/
theorem processPages_length_le (M : Nat) :
    ∀ (pairs : List (PageModel × List (Rect × String))) (pageIdx ctr : Nat),
      (∀ pr ∈ pairs, ∀ h t, (pr.1.search h t).length ≤ M) →
      (processPages core hash private_key hashed_key nonces entity_type mask
        target pairs pageIdx ctr).1.length ≤ pairs.length * M := by
  intro pairs
  induction pairs with
  | nil => intro pageIdx ctr _; simp [processPages]
  | cons pr prest ih =>
    intro pageIdx ctr hM
    obtain ⟨page, hist⟩ := pr
    simp only [processPages, List.length_append, List.length_cons, Nat.succ_mul]
    rw [processMatches_length]
    have h1 : (page.search hist target).length ≤ M :=
      hM (page, hist) (List.mem_cons_self _ _) hist target
    have h2 := ih (pageIdx + 1)
      ((processMatches core hash private_key hashed_key nonces entity_type mask
        target page pageIdx (page.search hist target) hist ctr).2.2)
      (fun pr hpr => hM pr (List.mem_cons_of_mem _ hpr))
    omega

/-- Every record built by the page loop points at a page of the document
and carries a rectangle returned by that page's search. -/
theorem processPages_mem :
    ∀ (pairs : List (PageModel × List (Rect × String))) (pageIdx ctr : Nat)
      (occ : Occurrence),
      occ ∈ (processPages core hash private_key hashed_key nonces entity_type mask
        target pairs pageIdx ctr).1 →
      ∃ j pg h, pairs.get? j = some (pg, h) ∧ occ.page = pageIdx + j + 1 ∧
        occ.rect ∈ pg.search h target := by
  intro pairs
  induction pairs with
  | nil => intro pageIdx ctr occ h; simp [processPages] at h
  | cons pr prest ih =>
    intro pageIdx ctr occ h
    obtain ⟨page, hist⟩ := pr
    simp only [processPages, List.mem_append] at h
    rcases h with h | h
    · obtain ⟨h1, h2⟩ := processMatches_mem core hash private_key hashed_key nonces
        entity_type mask target page pageIdx _ _ _ occ h
      exact ⟨0, page, hist, rfl, by omega, h1⟩
    · obtain ⟨j, pg, hh, hj, hp, hr⟩ := ih (pageIdx + 1) _ occ h
      exact ⟨j + 1, pg, hh, hj, by omega, hr⟩

/-- The replacement loop never changes which pages make up the document. -/
theorem processReplacements_fst_pages :
    ∀ (reps : List (String × String))
      (pairs : List (PageModel × List (Rect × String))) (ctr : Nat),
      ((processReplacements core hash private_key hashed_key nonces entity_masks
        reps pairs ctr).2.1).map Prod.fst = pairs.map Prod.fst := by
  intro reps
  induction reps with
  | nil => intro pairs ctr; simp [processReplacements]
  | cons re rrest ih =>
    intro pairs ctr
    obtain ⟨tgt, etype⟩ := re
    simp only [processReplacements]
    rw [ih, processPages_fst_pages]

/-- Record-count bound for the whole replacement loop. -/
theorem processReplacements_length_le (M : Nat) :
    ∀ (reps : List (String × String))
      (pairs : List (PageModel × List (Rect × String))) (ctr : Nat),
      (∀ pg ∈ pairs.map Prod.fst, ∀ h t, (pg.search h t).length ≤ M) →
      (processReplacements core hash private_key hashed_key nonces entity_masks
        reps pairs ctr).1.length ≤ reps.length * (pairs.length * M) := by
  intro reps
  induction reps with
  | nil => intro pairs ctr _; simp [processReplacements]
  | cons re rrest ih =>
    intro pairs ctr hM
    obtain ⟨tgt, etype⟩ := re
    simp only [processReplacements, List.length_append, List.length_cons, Nat.succ_mul]
    have h1 := processPages_length_le core hash private_key hashed_key nonces etype
      (maskFor entity_masks etype) tgt M pairs 0 ctr
      (fun pr hpr h t => hM pr.1 (List.mem_map_of_mem Prod.fst hpr) h t)
    have hfst := processPages_fst_pages core hash private_key hashed_key nonces etype
      (maskFor entity_masks etype) tgt pairs 0 ctr
    have hlen : ((processPages core hash private_key hashed_key nonces etype
        (maskFor entity_masks etype) tgt pairs 0 ctr).2.1).length = pairs.length := by
      have := congrArg List.length hfst
      simpa using this
    have h2 := ih ((processPages core hash private_key hashed_key nonces etype
        (maskFor entity_masks etype) tgt pairs 0 ctr).2.1)
      ((processPages core hash private_key hashed_key nonces etype
        (maskFor entity_masks etype) tgt pairs 0 ctr).2.2)
      (by rw [hfst]; exact hM)
    rw [hlen] at h2
    omega

/-- Every record of the replacement loop carries the 1-based index of a
document page and a rectangle returned by that page's search. -/
theorem processReplacements_mem :
    ∀ (reps : List (String × String))
      (pairs : List (PageModel × List (Rect × String))) (ctr : Nat)
      (occ : Occurrence),
      occ ∈ (processReplacements core hash private_key hashed_key nonces entity_masks
        reps pairs ctr).1 →
      ∃ j pg, (pairs.map Prod.fst).get? j = some pg ∧ occ.page = j + 1 ∧
        ∃ h t, occ.rect ∈ pg.search h t := by
  intro reps
  induction reps with
  | nil => intro pairs ctr occ h; simp [processReplacements] at h
  | cons re rrest ih =>
    intro pairs ctr occ h
    obtain ⟨tgt, etype⟩ := re
    simp only [processReplacements, List.mem_append] at h
    rcases h with h | h
    · obtain ⟨j, pg, hh, hj, hp, hr⟩ := processPages_mem core hash private_key
        hashed_key nonces etype (maskFor entity_masks etype) tgt pairs 0 ctr occ h
      refine ⟨j, pg, ?_, by omega, hh, tgt, hr⟩
      simp only [List.get?_eq_getElem?, List.getElem?_map] at hj ⊢
      simp [hj]
    · obtain ⟨j, pg, hj, hp, hex⟩ := ih _ _ occ h
      rw [processPages_fst_pages] at hj
      exact ⟨j, pg, hj, hp, hex⟩

end RedactionLemmas

/-- **C7 (amended)**: the number of occurrence records returned by
`anonymize_pdf` is bounded by `entries × pages × M` whenever every page
search returns at most `M` matches (the claim's `pages × entries` bound is
the special case `M = 1`, which the search does not guarantee: one page
can match the same target several times); and every returned record's
rectangle is one returned by the search on its page, hence lies within the
page's bounds whenever the search only returns in-bounds rectangles. -/
theorem C7_count_bound_and_rect_in_page (core : GCMCore) (hash : HashModel)
    (doc : List PageModel) (replacements : List (String × String))
    (private_key : Bytes) (entity_masks : List (String × String))
    (nonces : Nat → Bytes) (M : Nat)
    (hM : ∀ p ∈ doc, ∀ h t, (p.search h t).length ≤ M)
    (hb : ∀ p ∈ doc, ∀ h t, ∀ r ∈ p.search h t, rectInside r p.bounds) :
    (anonymize_pdf core hash doc replacements private_key entity_masks
      nonces).1.length ≤ replacements.length * (doc.length * M) ∧
    ∀ occ ∈ (anonymize_pdf core hash doc replacements private_key entity_masks
      nonces).1,
      ∃ pg, doc.get? (occ.page - 1) = some pg ∧ rectInside occ.rect pg.bounds := by
  have hfst : (doc.map (fun p => (p, ([] : List (Rect × String))))).map Prod.fst = doc := by
    simp [Function.comp_def]
  constructor
  · have := processReplacements_length_le core hash private_key
      (hash.digest private_key) nonces entity_masks M replacements
      (doc.map (fun p => (p, []))) 0 (by rw [hfst]; exact hM)
    simpa [anonymize_pdf] using this
  · intro occ hocc
    obtain ⟨j, pg, hj, hp, h, t, hr⟩ := processReplacements_mem core hash private_key
      (hash.digest private_key) nonces entity_masks replacements
      (doc.map (fun p => (p, []))) 0 occ (by simpa [anonymize_pdf] using hocc)
    rw [hfst] at hj
    refine ⟨pg, ?_, ?_⟩
    · rw [hp]; simpa using hj
    · exact hb pg (List.get?_mem hj) h t occ.rect hr

/-- A small rectangle inside `demoBounds`. -/
def demoRect : Rect := { x0 := 0, y0 := 0, x1 := 10, y1 := 5 }

/-- A second, disjoint rectangle inside `demoBounds`. -/
def demoRect2 : Rect := { x0 := 0, y0 := 6, x1 := 10, y1 := 11 }

/-- Concrete page bounds. -/
def demoBounds : Rect := { x0 := 0, y0 := 0, x1 := 100, y1 := 100 }

/-- A concrete hash oracle for evaluating the PDF theorems. -/
def demoHash : HashModel where
  digest b := b.map (fun x => (x + 1) % 256)
  hexdigest _ := "fp"

/-- A concrete nonce supply. -/
def demoNonces : Nat → Bytes := fun _ => [1]

/-- A page with exactly one match for `"Bob"` whose redaction attempt
always fails (models `add_redact_annot`/`apply_redactions` raising). -/
def demoFailPage : PageModel where
  search hist t := if hist = [] ∧ t = "Bob" then [demoRect] else []
  redactionFails _ _ := true
  bounds := demoBounds

/-- A page on which the target `"Bob"` occurs twice; redaction succeeds. -/
def demoTwoMatchPage : PageModel where
  search hist t := if hist = [] ∧ t = "Bob" then [demoRect, demoRect2] else []
  redactionFails _ _ := false
  bounds := demoBounds

/-- **C1** (the code contradicts the claim): on a one-page document with a
single match for the mapped target whose redaction attempt fails,
`anonymize_pdf` still returns one occurrence record while zero redactions
were physically applied.  The record is appended to `occurrences` before
the `try` block around `add_redact_annot`/`apply_redactions`, and the
`except` branch only skips the redaction, not the already-appended record
— despite its own comment "Skip this occurrence if redaction fails". -/
theorem C1_failed_redaction_still_recorded :
    ((anonymize_pdf demoCore demoHash [demoFailPage] [("Bob", "person")]
      (utf8Bytes "key") [] demoNonces).1).length = 1 ∧
    ((anonymize_pdf demoCore demoHash [demoFailPage] [("Bob", "person")]
      (utf8Bytes "key") [] demoNonces).2).map Prod.snd = [[]] := by
  exact ⟨rfl, rfl⟩

/-- **C7 counterexample**: one page and one mapping entry, but the page
contains the target twice, so `anonymize_pdf` returns 2 occurrence
records — more than pages × mapping entries = 1. -/
theorem C7_pages_times_entries_counterexample :
    ((anonymize_pdf demoCore demoHash [demoTwoMatchPage] [("Bob", "person")]
      (utf8Bytes "key") [] demoNonces).1).length = 2 ∧
    ¬ (((anonymize_pdf demoCore demoHash [demoTwoMatchPage] [("Bob", "person")]
      (utf8Bytes "key") [] demoNonces).1).length ≤
        [demoTwoMatchPage].length * [("Bob", "person")].length) := by
  constructor
  · rfl
  · intro hle
    have h2 : ((anonymize_pdf demoCore demoHash [demoTwoMatchPage] [("Bob", "person")]
        (utf8Bytes "key") [] demoNonces).1).length = 2 := rfl
    rw [h2] at hle
    simp at hle

/-- Witness for C7 (amended): the `entries × pages × M` bound evaluated on
the two-match page with `M = 2`. -/
theorem C7_count_bound_witness :
    ((anonymize_pdf demoCore demoHash [demoTwoMatchPage] [("Bob", "person")]
      (utf8Bytes "key") [] demoNonces).1).length ≤ 1 * (1 * 2) := by
  refine (C7_count_bound_and_rect_in_page demoCore demoHash [demoTwoMatchPage]
    [("Bob", "person")] (utf8Bytes "key") [] demoNonces 2 ?_ ?_).1
  · intro p hp h t
    simp only [List.mem_singleton] at hp
    subst hp
    by_cases hc : h = [] ∧ t = "Bob" <;> simp [demoTwoMatchPage, hc]
  · intro p hp h t r hr
    simp only [List.mem_singleton] at hp
    subst hp
    show rectInside r demoBounds
    by_cases hc : h = [] ∧ t = "Bob"
    · simp only [demoTwoMatchPage, if_pos hc] at hr
      rcases List.mem_pair.mp hr with h1 | h1 <;> subst h1 <;> decide
    · simp [demoTwoMatchPage, if_neg hc] at hr

/-! ### Metadata Embedding/Extraction Codec
(`src/api/utils/pdf_xmp.py`, `_embed_occurrences_xmp` / `extract_annotations`)

The XMP metadata stream is a character string; the regex searches of
`extract_annotations` are embedded as explicit scanners over `List Char`.
The JSON layer is the Python standard library, an external collaborator:
it is abstracted as a `JsonCodec` (a printer and parser for the fixed
occurrence schema plus an envelope-string parser), and every statement is
proved for any codec whose round-trip hypotheses hold. -/

/-- `needle` is a prefix of the second list. -/
def listIsPref : List Char → List Char → Bool
  | [], _ => true
  | _ :: _, [] => false
  | a :: l1, b :: l2 => a == b && listIsPref l1 l2

/-- Index of the first occurrence of `needle`, as `str.find` /
leftmost-regex-literal search. -/
def findSub (needle : List Char) : List Char → Option Nat
  | [] => if needle.isEmpty then some 0 else none
  | c :: rest =>
    if listIsPref needle (c :: rest) then some 0
    else (findSub needle rest).map (· + 1)

/-- Leftmost, shortest-inner match of `opn (.*?) cls` (`re.search` with
`re.DOTALL`): the first occurrence of `opn` that has `cls` somewhere after
it; the group is everything up to the first such `cls`. -/
def findBetweenAux (opn cls : List Char) : List Char → Option (List Char)
  | [] => none
  | c :: rest =>
    if listIsPref opn (c :: rest) then
      match findSub cls ((c :: rest).drop opn.length) with
      | some j => some (((c :: rest).drop opn.length).take j)
      | none => findBetweenAux opn cls rest
    else findBetweenAux opn cls rest

/-- Regex `\s` on the whitespace the metadata can contain. -/
def isSpaceC (c : Char) : Bool :=
  c == ' ' || c == '\n' || c == '\t' || c == '\r'

/-- Python `str.strip()`. -/
def stripChars (l : List Char) : List Char :=
  ((l.dropWhile isSpaceC).reverse.dropWhile isSpaceC).reverse

/-- `xml.sax.saxutils.unescape`: rewrite `&lt;`, `&gt;`, `&amp;` back to
the plain characters (the library performs the three replacements
sequentially with `&amp;` last, which coincides with this single
left-to-right pass because only `&amp;` emits a character that could start
a new entity and the earlier replacements never rescan it).  The fuel
argument makes the recursion structural; every step consumes at least one
character, so fuel equal to the input length never runs out. -/
def unescapeXmlF : Nat → List Char → List Char
  | 0, l => l
  | _ + 1, [] => []
  | fuel + 1, c :: rest =>
    if listIsPref ("&lt;".toList) (c :: rest) then '<' :: unescapeXmlF fuel (rest.drop 3)
    else if listIsPref ("&gt;".toList) (c :: rest) then '>' :: unescapeXmlF fuel (rest.drop 3)
    else if listIsPref ("&amp;".toList) (c :: rest) then '&' :: unescapeXmlF fuel (rest.drop 4)
    else c :: unescapeXmlF fuel rest

/-- `saxutils.unescape` with enough fuel. -/
def unescapeXml (l : List Char) : List Char :=
  unescapeXmlF l.length l

/-- The literal fragments searched for by `extract_annotations`. -/
def annOpenMarker : List Char := "<custom:AnnotationData><![CDATA[".toList

/-- Close of the current-format CDATA block. -/
def annCloseMarker : List Char := "]]></custom:AnnotationData>".toList

/-- The bare opening tag (patterns 2 and 3 of method 1). -/
def annOpenTag : List Char := "<custom:AnnotationData>".toList

/-- The bare closing tag. -/
def annCloseTag : List Char := "</custom:AnnotationData>".toList

/-- `<![CDATA[`. -/
def cdataOpen : List Char := "<![CDATA[".toList

/-- `]]>`. -/
def cdataClose : List Char := "]]>".toList

/-- The attribute-style marker of method 2. -/
def attrMarker : List Char := "custom:AnnotationData=\"".toList

/-- Opening literal of the legacy `rdf:Description` tags (method 3). -/
def descOpen : List Char := "<rdf:Description".toList

/-- `custom:` attribute marker of the legacy property regex. -/
def customColon : List Char := "custom:".toList

/-- Opening literal of the raw-JSON pattern of method 4. -/
def m4open : List Char := "\x7b\"occurrences\":".toList

/-- Closing literal `]\x7d` of the raw-JSON pattern. -/
def m4close : List Char := "]\x7d".toList

/-- The left part of the blob method 4 rebuilds
(`f'\x7b"occurrences": [...]\x7d'` inserts one space after the colon). -/
def m4rebuildPre : List Char := "\x7b\"occurrences\": [".toList

/-- End-of-CDATA test for pattern 2 of method 1: `]]>` followed by
whitespace and the closing tag. -/
def cdataEndHere (hay : List Char) : Bool :=
  listIsPref cdataClose hay && listIsPref annCloseTag ((hay.drop 3).dropWhile isSpaceC)

/-- Position of the first CDATA end admissible for pattern 2 (the
non-greedy group extends to the first `]]>` whose continuation matches). -/
def cdataEndSearch : List Char → Option Nat
  | [] => none
  | c :: rest =>
    if cdataEndHere (c :: rest) then some 0 else (cdataEndSearch rest).map (· + 1)

/-- Pattern 2 of method 1:
`<custom:AnnotationData>\s*<!\[CDATA\[(.*?)\]\]>\s*</custom:AnnotationData>`. -/
def pat2Scan : List Char → Option (List Char)
  | [] => none
  | c :: rest =>
    if listIsPref annOpenTag (c :: rest) then
      let afterTag := ((c :: rest).drop annOpenTag.length).dropWhile isSpaceC
      if listIsPref cdataOpen afterTag then
        match cdataEndSearch (afterTag.drop cdataOpen.length) with
        | some j => some ((afterTag.drop cdataOpen.length).take j)
        | none => pat2Scan rest
      else pat2Scan rest
    else pat2Scan rest

/-- Method 3's tag regex `<rdf:Description([^>]*)/>`: a match needs the
first `>` after the literal to be immediately preceded by `/`; scanning
continues after the match (`finditer` non-overlapping), or one character
further on a failed candidate.  Fuel as in `unescapeXmlF`. -/
def method3ScanF : Nat → List Char → List (List Char)
  | 0, _ => []
  | _ + 1, [] => []
  | fuel + 1, c :: rest =>
    if listIsPref descOpen (c :: rest) then
      match findSub ['>'] ((c :: rest).drop descOpen.length) with
      | some j =>
        if 1 ≤ j ∧ ((c :: rest).drop descOpen.length).get? (j - 1) = some '/' then
          ((c :: rest).drop descOpen.length).take (j - 1) ::
            method3ScanF fuel (((c :: rest).drop descOpen.length).drop (j + 1))
        else method3ScanF fuel rest
      | none => method3ScanF fuel rest
    else method3ScanF fuel rest

/-- The tag scan with enough fuel. -/
def method3Scan (l : List Char) : List (List Char) :=
  method3ScanF l.length l

/-- Method 3's property regex `custom:([A-Za-z]+)="([^"]*)"` over one
attribute block, collected in match order.  Fuel as in `unescapeXmlF`. -/
def propScanF : Nat → List Char → List (List Char × List Char)
  | 0, _ => []
  | _ + 1, [] => []
  | fuel + 1, c :: rest =>
    if listIsPref customColon (c :: rest) then
      let after := (c :: rest).drop customColon.length
      let name := after.takeWhile (fun ch => ch.isAlpha)
      if !name.isEmpty && listIsPref ['=', '"'] (after.drop name.length) then
        match findSub ['"'] (after.drop (name.length + 2)) with
        | some j =>
          (name, (after.drop (name.length + 2)).take j) ::
            propScanF fuel ((after.drop (name.length + 2)).drop (j + 1))
        | none => propScanF fuel rest
      else propScanF fuel rest
    else propScanF fuel rest

/-- The property scan with enough fuel. -/
def propScan (l : List Char) : List (List Char × List Char) :=
  propScanF l.length l

/-- Method 4's leftmost match of `\{"occurrences":\s*\[(.*?)\]\}`. -/
def method4Find : List Char → Option (List Char)
  | [] => none
  | c :: rest =>
    if listIsPref m4open (c :: rest) then
      let after := ((c :: rest).drop m4open.length).dropWhile isSpaceC
      if listIsPref ['['] after then
        match findSub m4close (after.drop 1) with
        | some j => some ((after.drop 1).take j)
        | none => method4Find rest
      else method4Find rest
    else method4Find rest

/-- One sanitised occurrence dict (`safe_occ` in `_embed_occurrences_xmp`):
all fields coerced to primitive types; the `encrypted_entity` string is
the AES-GCM envelope JSON, modelled in parsed form, and the rect floats
are carried as rationals. -/
structure SafeOcc where
  id : String
  page : Int
  rect : List Rat
  entity_type : String
  entity_mask : String
  encrypted_entity : Envelope
  key_fingerprint : String
  deriving DecidableEq, Repr

/-- The external JSON layer (`json.dumps` / `json.loads` of the Python
standard library): a printer for `{"occurrences": [...]}` with the fixed
schema, the corresponding parser (including the dict / `"occurrences"`
shape check of the extraction code), and the envelope-string parser used
when a record's `encrypted_entity` string is handed to `aes_gcm_decrypt`. -/
structure JsonCodec where
  printOccs : List SafeOcc → List Char
  parseOccs : List Char → Option (List SafeOcc)
  parseEnvelope : List Char → Option Envelope

/-- One record returned by `extract_annotations`: a JSON-format occurrence
(methods 1, 2, 4) or a legacy attribute dict (method 3).  The `entity`
field is `none` when no decryption was attempted (no key), `some none`
when decryption failed (Python `None`), `some (some p)` on success. -/
inductive AnnRecord where
  | json (occ : SafeOcc) (entity : Option (Option Bytes))
  | legacy (props : List (List Char × List Char)) (entity : Option (Option Bytes))
  deriving DecidableEq, Repr

/-- Python truthiness of the optional `decryption_key` argument. -/
def keyTruthy : Option Bytes → Bool
  | none => false
  | some k => !k.isEmpty

/-- One guarded decryption attempt (`try: decrypt_entity(...) except:
entity = None`); the UTF-8 decode of the plaintext is the identity on the
byte level. -/
def decryptOcc (core : GCMCore) (key : Bytes) (env : Envelope) : Option Bytes :=
  match aes_gcm_decrypt core env key headerBytes with
  | .ok p => some p
  | .error _ => none

/-- The per-record decryption loop run before each JSON-format return of
`extract_annotations` (pdf_xmp.py lines 513-532 for method 1, repeated for
methods 2 and 4): each record is decrypted independently, a failure only
nulls that record's `entity`. -/
def decorate (core : GCMCore) (key? : Option Bytes) (occs : List SafeOcc) :
    List AnnRecord :=
  occs.map (fun o =>
    if keyTruthy key? then
      .json o (some (decryptOcc core (key?.getD []) o.encrypted_entity))
    else .json o none)

/-- `json_blob -> occurrences` for method 1: strip, parse, require the
dict shape and a non-empty list (an empty list falls through to the next
pattern). -/
def tryParseStrip (codec : JsonCodec) : Option (List Char) → Option (List SafeOcc)
  | none => none
  | some blob =>
    match codec.parseOccs (stripChars blob) with
    | some occs => if occs.isEmpty then none else some occs
    | none => none

/-- Method 1: the three CDATA patterns in order. -/
def method1 (codec : JsonCodec) (xmp : List Char) : Option (List SafeOcc) :=
  match tryParseStrip codec (findBetweenAux annOpenMarker annCloseMarker xmp) with
  | some occs => some occs
  | none =>
    match tryParseStrip codec (pat2Scan xmp) with
    | some occs => some occs
    | none => tryParseStrip codec (findBetweenAux annOpenTag annCloseTag xmp)

/-- Method 2: attribute-style `custom:AnnotationData="..."` with XML
entity unescaping (no strip, single candidate). -/
def method2 (codec : JsonCodec) (xmp : List Char) : Option (List SafeOcc) :=
  match findSub attrMarker xmp with
  | none => none
  | some i =>
    match findSub ['"'] (xmp.drop (i + attrMarker.length)) with
    | none => none
    | some j =>
      match codec.parseOccs (unescapeXml ((xmp.drop (i + attrMarker.length)).take j)) with
      | some occs => if occs.isEmpty then none else some occs
      | none => none

/-- Method 3: the legacy per-occurrence `rdf:Description` format; only
blocks with at least one `custom:` property are kept (the collapse of
duplicate attribute names by the Python dict comprehension is not
modelled; property lists are kept in match order). -/
def method3 (xmp : List Char) : List (List (List Char × List Char)) :=
  ((method3Scan xmp).map
    (fun attrs => (propScan attrs).map (fun p => (p.1, unescapeXml p.2)))).filter
    (fun props => !props.isEmpty)

/-- Method 4: the raw-JSON pattern search, rebuilding
`\x7b"occurrences": [...]\x7d` before parsing. -/
def method4 (codec : JsonCodec) (xmp : List Char) : Option (List SafeOcc) :=
  match method4Find xmp with
  | none => none
  | some inner =>
    match codec.parseOccs (m4rebuildPre ++ inner ++ m4close) with
    | some occs => if occs.isEmpty then none else some occs
    | none => none

/-- Lookup of one legacy property (`props["encrypted_entity"]`). -/
def lookupProp (props : List (List Char × List Char)) (k : List Char) :
    Option (List Char) :=
  (props.find? (fun p => p.1 == k)).map Prod.snd

/-- Decryption decoration of one legacy record: attempted only when the
key is truthy and the `encrypted_entity` property is present; a failure of
the envelope parse or of the tag check nulls the `entity`. -/
def decorateLegacy (codec : JsonCodec) (core : GCMCore) (key? : Option Bytes)
    (props : List (List Char × List Char)) : AnnRecord :=
  match key?, lookupProp props ("encrypted_entity".toList) with
  | some k, some envStr =>
    if !k.isEmpty then
      .legacy props (some (match codec.parseEnvelope envStr with
        | some env => decryptOcc core k env
        | none => none))
    else .legacy props none
  | _, _ => .legacy props none

/-- Model of `extract_annotations` (pdf_xmp.py lines 452-643): `metadata =
none` models a PDF without a `/Metadata` key (or one whose open/read
fails, both early `return []`); otherwise the four methods are tried in
order and the first producing records wins; with no hit the result is the
empty list, never an error. -/
def extract_annotations (codec : JsonCodec) (core : GCMCore)
    (metadata : Option (List Char)) (key? : Option Bytes) : List AnnRecord :=
  match metadata with
  | none => []
  | some xmp =>
    match method1 codec xmp with
    | some occs => decorate core key? occs
    | none =>
      match method2 codec xmp with
      | some occs => decorate core key? occs
      | none =>
        match method3 xmp with
        | [] =>
          match method4 codec xmp with
          | some occs => decorate core key? occs
          | none => []
        | props => props.map (decorateLegacy codec core key?)

/-- The coercions of `_embed_occurrences_xmp` building `safe_occ` from an
occurrence dict: `str`, `int`, float list. -/
def toSafeOcc (occ : Occurrence) : SafeOcc :=
  { id := "ann" ++ toString occ.id
    page := occ.page
    rect := [occ.rect.x0, occ.rect.y0, occ.rect.x1, occ.rect.y1]
    entity_type := occ.entity_type
    entity_mask := occ.entity_mask
    encrypted_entity := occ.encrypted_entity
    key_fingerprint := occ.key_fingerprint }

/-- The fixed XMP packet text before the CDATA payload
(`_embed_occurrences_xmp`'s f-string up to `\x7bjson_blob\x7d`). -/
def xmpPre : List Char :=
  ("<?xpacket begin=\x27\x27 id=\x27W5M0MpCehiHzreSzNTczkc9d\x27?>\n<rdf:RDF xmlns:rdf=\"http://www.w3.org/1999/02/22-rdf-syntax-ns#\"\n         xmlns:custom=\"http://example.com/custom/\">\n  <rdf:Description rdf:about=\"\">\n    <custom:AnnotationData><![CDATA[").toList

/-- The fixed XMP packet text after the CDATA payload. -/
def xmpPost : List Char :=
  ("]]></custom:AnnotationData>\n  </rdf:Description>\n</rdf:RDF>\n<?xpacket end=\x27w\x27?>").toList

/-- Model of `_embed_occurrences_xmp` (pdf_xmp.py lines 646-699): coerce
every occurrence to primitive types, serialise to JSON with
`ensure_ascii=True` and wrap in the CDATA packet; the result becomes the
document's entire `/Metadata` stream (any previous stream is replaced). -/
def embed_occurrences_xmp (codec : JsonCodec) (occs : List Occurrence) : List Char :=
  xmpPre ++ codec.printOccs (occs.map toSafeOcc) ++ xmpPost

/-- A prefix test only inspects the first `needle.length` characters. -/
theorem listIsPref_append_left :
    ∀ (needle a b : List Char), needle.length ≤ a.length →
      listIsPref needle (a ++ b) = listIsPref needle a := by
  intro needle
  induction needle with
  | nil => intro a b _; simp [listIsPref]
  | cons c n ih =>
    intro a b hlen
    cases a with
    | nil => simp at hlen
    | cons x a2 =>
      simp only [List.cons_append, listIsPref, List.append_eq]
      rw [ih a2 b (by simpa using hlen)]

/-- Any list is a prefix of itself followed by anything. -/
theorem listIsPref_self_append :
    ∀ (needle b : List Char), listIsPref needle (needle ++ b) = true := by
  intro needle
  induction needle with
  | nil => intro b; simp [listIsPref]
  | cons c n ih => intro b; simp [listIsPref, ih]

/-- The CDATA search on a packet `pre ++ blob ++ post` whose fixed head
`pre` ends with the opening marker (and contains no earlier occurrence of
it), and where the first close marker after the payload sits exactly at
the payload's end, returns exactly the payload. -/
theorem findBetweenAux_concat (opn cls : List Char) (hne : opn ≠ []) :
    ∀ (pre blob post : List Char),
      opn.length ≤ pre.length →
      pre.drop (pre.length - opn.length) = opn →
      (∀ i, i < pre.length - opn.length → listIsPref opn (pre.drop i) = false) →
      findSub cls (blob ++ post) = some blob.length →
      findBetweenAux opn cls (pre ++ (blob ++ post)) = some blob := by
  intro pre
  induction pre with
  | nil =>
    intro blob post hlen _ _ _
    exact absurd (List.length_eq_zero.mp (Nat.le_zero.mp hlen)) hne
  | cons c pre2 ih =>
    intro blob post hlen hsuf hpre hcls
    by_cases hcase : pre2.length + 1 = opn.length
    · have hdrop0 : (c :: pre2).length - opn.length = 0 := by
        simp only [List.length_cons]; omega
      rw [hdrop0, List.drop_zero] at hsuf
      have hrw : (c :: pre2) ++ (blob ++ post) = opn ++ (blob ++ post) := by rw [hsuf]
      rw [hrw]
      cases hop : opn ++ (blob ++ post) with
      | nil => exact absurd (List.append_eq_nil.mp hop).1 hne
      | cons d rest =>
        rw [← hop]
        have hx : ∃ d2 rest2, opn ++ (blob ++ post) = d2 :: rest2 := ⟨d, rest, hop⟩
        obtain ⟨d2, rest2, hop2⟩ := hx
        rw [hop2]
        simp only [findBetweenAux, ← hop2, listIsPref_self_append, if_true]
        rw [List.drop_left, hcls]
        simp [List.take_left]
    · have hlt : opn.length < pre2.length + 1 := by
        simp only [List.length_cons] at hlen; omega
      have h0 : listIsPref opn (c :: pre2) = false :=
        hpre 0 (by simp only [List.length_cons]; omega)
      have hstep : listIsPref opn ((c :: pre2) ++ (blob ++ post)) = false := by
        rw [listIsPref_append_left opn (c :: pre2) (blob ++ post)
          (by simp only [List.length_cons]; omega)]
        exact h0
      simp only [List.cons_append, findBetweenAux, List.append_eq]
      rw [show (c :: pre2) ++ (blob ++ post) = c :: (pre2 ++ (blob ++ post)) from rfl] at hstep
      rw [hstep]
      simp only [Bool.false_eq_true, if_false]
      apply ih blob post (by omega)
      · have : (c :: pre2).length - opn.length = (pre2.length - opn.length) + 1 := by
          simp only [List.length_cons]; omega
        rw [this] at hsuf
        simpa using hsuf
      · intro i hi
        have := hpre (i + 1) (by simp only [List.length_cons]; omega)
        simpa using this
      · exact hcls

/-- Decrypting a just-encrypted envelope under the same key and header
recovers the plaintext. -/
theorem decryptOcc_encrypt (core : GCMCore) (key p nonce : Bytes) :
    decryptOcc core key (aes_gcm_encrypt core p key headerBytes nonce) = some p := by
  simp [decryptOcc, aes_gcm_decrypt, aes_gcm_encrypt, ctrXor_involutive]

/-- `decryptOcc` is the `Option` view of `aes_gcm_decrypt`. -/
theorem decryptOcc_eq_toOption (core : GCMCore) (key : Bytes) (env : Envelope) :
    decryptOcc core key env = (aes_gcm_decrypt core env key headerBytes).toOption := by
  cases h : aes_gcm_decrypt core env key headerBytes <;>
    simp [decryptOcc, Except.toOption, h]

/-- Decoration of a list of records whose envelopes encrypt the targets
pointwise yields exactly the records with the targets as entities. -/
theorem decorate_forall2 (core : GCMCore) (key : Bytes) (hkey : key ≠ []) :
    ∀ (occs : List Occurrence) (targets : List Bytes),
      List.Forall₂ (fun (o : Occurrence) (t : Bytes) =>
        ∃ nonce, o.encrypted_entity = aes_gcm_encrypt core t key headerBytes nonce)
        occs targets →
      decorate core (some key) (occs.map toSafeOcc) =
        List.zipWith (fun (o : Occurrence) (t : Bytes) =>
          AnnRecord.json (toSafeOcc o) (some (some t))) occs targets := by
  intro occs targets henc
  have hkt : keyTruthy (some key) = true := by
    simp [keyTruthy, List.isEmpty_iff, hkey]
  induction henc with
  | nil => simp [decorate]
  | cons h hrest ih =>
    rename_i o t os ts
    obtain ⟨nonce, hn⟩ := h
    simp only [decorate, List.map_cons, List.zipWith_cons_cons, hkt, if_true,
      Option.getD_some] at ih ⊢
    have hhd : decryptOcc core key (toSafeOcc o).encrypted_entity = some t := by
      show decryptOcc core key o.encrypted_entity = some t
      rw [hn]
      exact decryptOcc_encrypt core key t nonce
    rw [hhd, ih]

set_option maxRecDepth 40000 in
/-- **C2**: embedding an occurrence list and re-extracting with the same
key returns records equal in content (ids, pages, rects as rational
lists, entity types, masks, envelopes, fingerprints all preserved by
`toSafeOcc`), each additionally carrying an `entity` field equal to the
original target.  Hypotheses: the key is truthy; the list is non-empty
(an empty embedded list re-extracts as the equal empty list through the
final fallthrough instead); the external JSON layer round-trips on this
occurrence list; the printed JSON does not contain the close marker
earlier than the packet's own close; and each record's envelope encrypts
its target under the key. -/
theorem C2_embed_extract_roundtrip (codec : JsonCodec) (core : GCMCore)
    (occs : List Occurrence) (targets : List Bytes) (key : Bytes)
    (hkey : key ≠ []) (hne : occs ≠ [])
    (hparse : codec.parseOccs (stripChars (codec.printOccs (occs.map toSafeOcc))) =
      some (occs.map toSafeOcc))
    (hclose : findSub annCloseMarker (codec.printOccs (occs.map toSafeOcc) ++ xmpPost) =
      some (codec.printOccs (occs.map toSafeOcc)).length)
    (henc : List.Forall₂ (fun (o : Occurrence) (t : Bytes) =>
      ∃ nonce, o.encrypted_entity = aes_gcm_encrypt core t key headerBytes nonce)
      occs targets) :
    extract_annotations codec core (some (embed_occurrences_xmp codec occs)) (some key) =
      List.zipWith (fun (o : Occurrence) (t : Bytes) =>
        AnnRecord.json (toSafeOcc o) (some (some t))) occs targets := by
  have hemb : embed_occurrences_xmp codec occs =
      xmpPre ++ (codec.printOccs (occs.map toSafeOcc) ++ xmpPost) := by
    simp [embed_occurrences_xmp, List.append_assoc]
  have hfba : findBetweenAux annOpenMarker annCloseMarker
      (xmpPre ++ (codec.printOccs (occs.map toSafeOcc) ++ xmpPost)) =
      some (codec.printOccs (occs.map toSafeOcc)) := by
    apply findBetweenAux_concat annOpenMarker annCloseMarker (by decide)
      xmpPre _ xmpPost (by decide) (by decide) (by decide) hclose
  have hmapne : (occs.map toSafeOcc).isEmpty = false := by
    cases occs with
    | nil => exact absurd rfl hne
    | cons o os => rfl
  have hm1 : method1 codec (xmpPre ++ (codec.printOccs (occs.map toSafeOcc) ++ xmpPost)) =
      some (occs.map toSafeOcc) := by
    simp [method1, tryParseStrip, hfba, hparse, hmapne]
  rw [hemb]
  simp only [extract_annotations, hm1]
  exact decorate_forall2 core key hkey occs targets henc

/-- A concrete occurrence for the codec witnesses. -/
def demoOcc : Occurrence :=
  { id := 0
    page := 1
    rect := demoRect
    entity_type := "person"
    entity_mask := "[PERSON]"
    encrypted_entity := aes_gcm_encrypt demoCore (utf8Bytes "Jan") demoKey headerBytes [9]
    key_fingerprint := "fp" }

/-- A concrete JSON codec that serialises the singleton demo list. -/
def demoCodec : JsonCodec where
  printOccs _ := "JSONBLOB".toList
  parseOccs s := if s = "JSONBLOB".toList then some [toSafeOcc demoOcc] else none
  parseEnvelope _ := none

set_option maxRecDepth 40000 in
/-- Witness for C2 on the singleton demo occurrence. -/
theorem C2_embed_extract_roundtrip_witness :
    extract_annotations demoCodec demoCore
        (some (embed_occurrences_xmp demoCodec [demoOcc])) (some demoKey) =
      List.zipWith (fun (o : Occurrence) (t : Bytes) =>
        AnnRecord.json (toSafeOcc o) (some (some t))) [demoOcc] [utf8Bytes "Jan"] :=
  C2_embed_extract_roundtrip demoCodec demoCore [demoOcc] [utf8Bytes "Jan"] demoKey
    (by decide) (by decide) (by decide) (by decide)
    (List.Forall₂.cons ⟨[9], rfl⟩ List.Forall₂.nil)

/-- **C5**: the decryption pass over extracted records decrypts each
record independently — it distributes over concatenation, preserves the
record count, and the record at index `i` depends only on the input
record at index `i`; when every record's decryption fails (e.g. a wrong
key), every record is still returned, with a null (`some none`) entity. -/
theorem C5_per_record_decryption (core : GCMCore) (key : Bytes) (occs : List SafeOcc)
    (hkey : key ≠ []) :
    (∀ xs ys : List SafeOcc, decorate core (some key) (xs ++ ys) =
      decorate core (some key) xs ++ decorate core (some key) ys) ∧
    (decorate core (some key) occs).length = occs.length ∧
    (∀ i : Nat, (decorate core (some key) occs).get? i =
      (occs.get? i).map (fun o =>
        AnnRecord.json o (some (decryptOcc core key o.encrypted_entity)))) ∧
    ((∀ o ∈ occs, (aes_gcm_decrypt core o.encrypted_entity key headerBytes).toOption
        = none) →
      decorate core (some key) occs =
        occs.map (fun o => AnnRecord.json o (some none))) := by
  have hkt : keyTruthy (some key) = true := by
    simp [keyTruthy, List.isEmpty_iff, hkey]
  refine ⟨?_, ?_, ?_, ?_⟩
  · intro xs ys; simp [decorate]
  · simp [decorate]
  · intro i; simp [decorate, List.get?_eq_getElem?, List.getElem?_map, hkt]
  · intro hfail
    apply List.map_congr_left
    intro o ho
    rw [hkt]
    simp only [if_true, Option.getD_some]
    rw [decryptOcc_eq_toOption, hfail o ho]

/-- A second demo occurrence. -/
def demoOcc2 : Occurrence :=
  { id := 1
    page := 1
    rect := demoRect2
    entity_type := "person"
    entity_mask := "[PERSON]"
    encrypted_entity := aes_gcm_encrypt demoCore (utf8Bytes "Piet") demoKey headerBytes [7]
    key_fingerprint := "fp" }

/-- Two demo records encrypted under `demoKey`. -/
def demoSafeOccs : List SafeOcc :=
  [toSafeOcc demoOcc, toSafeOcc demoOcc2]

/-- A wrong key of valid length. -/
def demoWrongKey : Bytes := List.replicate 16 8

/-- Witness for C5: with a completely wrong key, both records come back
with a null entity, and the pass distributes over concatenation. -/
theorem C5_per_record_decryption_witness :
    decorate demoCore (some demoWrongKey) demoSafeOccs =
      demoSafeOccs.map (fun o => AnnRecord.json o (some none)) ∧
    (decorate demoCore (some demoWrongKey) demoSafeOccs).length = demoSafeOccs.length := by
  constructor
  · exact (C5_per_record_decryption demoCore demoWrongKey demoSafeOccs
      (by decide)).2.2.2 (by decide)
  · exact (C5_per_record_decryption demoCore demoWrongKey demoSafeOccs
      (by decide)).2.1

/-- **C6**: a PDF with no metadata stream extracts to the empty list, and
whenever none of the four methods (CDATA patterns, attribute style,
legacy descriptions, raw JSON search) yields a parseable non-empty
occurrence list, `extract_annotations` returns the empty list — a total
function, never an error. -/
theorem C6_no_method_yields_empty (codec : JsonCodec) (core : GCMCore)
    (key? : Option Bytes) :
    extract_annotations codec core none key? = [] ∧
    (∀ xmp : List Char, method1 codec xmp = none → method2 codec xmp = none →
      method3 xmp = [] → method4 codec xmp = none →
      extract_annotations codec core (some xmp) key? = []) := by
  constructor
  · rfl
  · intro xmp h1 h2 h3 h4
    simp [extract_annotations, h1, h2, h3, h4]

/-- A codec on which every parse fails. -/
def demoNoCodec : JsonCodec where
  printOccs _ := []
  parseOccs _ := none
  parseEnvelope _ := none

/-- Witness for C6 on a metadata string with no annotation content. -/
theorem C6_no_method_yields_empty_witness :
    extract_annotations demoNoCodec demoCore none (some demoKey) = [] ∧
    extract_annotations demoNoCodec demoCore
      (some ("just some metadata text".toList)) (some demoKey) = [] := by
  constructor
  · exact (C6_no_method_yields_empty demoNoCodec demoCore (some demoKey)).1
  · exact (C6_no_method_yields_empty demoNoCodec demoCore (some demoKey)).2
      ("just some metadata text".toList) (by decide) (by decide) (by decide) (by decide)

/-! ### De-anonymization Engine
(`src/api/utils/pdf_xmp.py`, `process_anonymized_pdf_to_deanonymize`)

The records consumed here come from `json.loads`, which applies no schema
validation, so the `page` and `rect` values of a record are modelled as
arbitrary JSON data observable through the operations the code performs
on them: `int(ann["page"])` either yields an integer or raises, and
`ann["rect"]` either is a list (of values on which `pymupdf.Rect` either
works or raises) or is not a list. -/

/-- The observable behaviour of `int(ann["page"])`. -/
inductive PageField where
  | intLike (n : Int)
  | malformed
  deriving DecidableEq, Repr

/-- The observable shape of `ann["rect"]`: a list whose entries are
numbers (`some r`) or non-numbers (`none`, on which `pymupdf.Rect`
raises), or not a list at all. -/
inductive RectField where
  | ofList (entries : List (Option Rat))
  | notList
  deriving DecidableEq, Repr

/-- One record as consumed by the de-anonymization loop: each field is
`none` when the corresponding key is absent from the dict; the `entity`
value itself is `none` for Python `None` (a failed decryption). -/
structure DeAnn where
  entity : Option (Option Bytes)
  page : Option PageField
  rect : Option RectField
  deriving DecidableEq, Repr

/-- Failure modes of `process_anonymized_pdf_to_deanonymize`: the explicit
`ValueError` raised when no annotations are found, and an uncaught
conversion error (`int(...)` / `pymupdf.Rect(*rect)` raising on malformed
values). -/
inductive DeanonError where
  | noMetadata
  | conversionCrash
  deriving DecidableEq, Repr

/-- The bounds check `0 <= page_num < len(doc)` with
`page_num = int(ann["page"]) - 1`. -/
def pageInRange (numPages : Nat) (n : Int) : Prop :=
  0 ≤ n - 1 ∧ n - 1 < (numPages : Int)

instance (numPages : Nat) (n : Int) : Decidable (pageInRange numPages n) := by
  unfold pageInRange; infer_instance

/-- All-numeric check of the four rect entries (`pymupdf.Rect(*rect)`). -/
def seqOpts : List (Option Rat) → Option (List Rat)
  | [] => some []
  | none :: _ => none
  | some x :: rest => (seqOpts rest).map (x :: ·)

/-- The record loop of `process_anonymized_pdf_to_deanonymize` (pdf_xmp.py
lines 92-111): for each record with the `entity`, `page` and `rect` keys,
convert the page (raising aborts the call), check the 0-based page index
against the document, skip a non-list rect (logged) or a list of length
other than 4 (silently), and otherwise redact the rectangle and insert
the record's entity text.  The applied redactions are returned as
`(page0, coords, text)` triples in loop order. -/
def deanonApply (numPages : Nat) :
    List DeAnn → Except DeanonError (List (Nat × List Rat × Option Bytes))
  | [] => .ok []
  | ann :: rest =>
    match ann.entity, ann.page, ann.rect with
    | some ent, some pf, some rf =>
      match pf with
      | .malformed => .error .conversionCrash
      | .intLike n =>
        if pageInRange numPages n then
          match rf with
          | .notList => deanonApply numPages rest
          | .ofList entries =>
            if entries.length = 4 then
              match seqOpts entries with
              | some coords =>
                match deanonApply numPages rest with
                | .ok ops => .ok (((n - 1).toNat, coords, ent) :: ops)
                | .error e => .error e
              | none => .error .conversionCrash
            else deanonApply numPages rest
        else deanonApply numPages rest
    | _, _, _ => deanonApply numPages rest

/-- Model of `process_anonymized_pdf_to_deanonymize` (pdf_xmp.py lines
77-111): extraction is modelled separately (`extract_annotations`); given
its record list, raise the distinct "no annotations found" `ValueError`
when it is empty, otherwise run the record loop. -/
def process_anonymized_pdf_to_deanonymize (numPages : Nat) (anns : List DeAnn) :
    Except DeanonError (List (Nat × List Rat × Option Bytes)) :=
  if anns.isEmpty then .error .noMetadata
  else deanonApply numPages anns

/-- Whether one record makes the loop raise: a present but non-integer
page value, or an in-range page with a 4-element rect containing a
non-numeric entry. -/
def annCrashes (numPages : Nat) (ann : DeAnn) : Bool :=
  match ann.entity, ann.page, ann.rect with
  | some _, some pf, some rf =>
    match pf with
    | .malformed => true
    | .intLike n =>
      if pageInRange numPages n then
        match rf with
        | .ofList entries => entries.length = 4 && (seqOpts entries).isNone
        | .notList => false
      else false
  | _, _, _ => false

/-- The redaction op a well-formed record contributes, `none` for
skipped records. -/
def opOf (numPages : Nat) (ann : DeAnn) : Option (Nat × List Rat × Option Bytes) :=
  match ann.entity, ann.page, ann.rect with
  | some ent, some (.intLike n), some (.ofList entries) =>
    if pageInRange numPages n then
      if entries.length = 4 then
        match seqOpts entries with
        | some coords => some ((n - 1).toNat, coords, ent)
        | none => none
      else none
    else none
  | _, _, _ => none

/-- The record loop never produces the no-metadata error. -/
theorem deanonApply_ne_noMetadata (numPages : Nat) :
    ∀ (anns : List DeAnn),
      deanonApply numPages anns ≠ .error .noMetadata := by
  intro anns
  induction anns with
  | nil => simp [deanonApply]
  | cons a rest ih =>
    obtain ⟨e, p, r⟩ := a
    cases e with
    | none => simpa [deanonApply] using ih
    | some ent =>
      cases p with
      | none => simpa [deanonApply] using ih
      | some pf =>
        cases r with
        | none => simpa [deanonApply] using ih
        | some rf =>
          cases pf with
          | malformed => simp [deanonApply]
          | intLike n =>
            by_cases hin : pageInRange numPages n
            · cases rf with
              | notList => simpa [deanonApply, hin] using ih
              | ofList entries =>
                by_cases h4 : entries.length = 4
                · cases hs : seqOpts entries with
                  | none => simp [deanonApply, hin, h4, hs]
                  | some coords =>
                    cases hrec : deanonApply numPages rest with
                    | ok ops => simp [deanonApply, hin, h4, hs, hrec]
                    | error err =>
                      rw [hrec] at ih
                      simp [deanonApply, hin, h4, hs, hrec]
                      intro hc
                      exact ih (by rw [hc])
                · simpa [deanonApply, hin, h4] using ih
            · simpa [deanonApply, hin] using ih

/-- When no record makes the loop raise, the loop returns exactly the ops
of the well-formed records, in order — malformed or out-of-range records
are skipped, not fatal. -/
theorem deanonApply_ok (numPages : Nat) :
    ∀ (anns : List DeAnn),
      (∀ ann ∈ anns, annCrashes numPages ann = false) →
      deanonApply numPages anns = .ok (anns.filterMap (opOf numPages)) := by
  intro anns
  induction anns with
  | nil => intro _; simp [deanonApply]
  | cons a rest ih =>
    intro hno
    have hrest := ih (fun ann hann => hno ann (List.mem_cons_of_mem _ hann))
    have ha := hno a (List.mem_cons_self _ _)
    obtain ⟨e, p, r⟩ := a
    cases e with
    | none => simpa [deanonApply, opOf, List.filterMap_cons] using hrest
    | some ent =>
      cases p with
      | none => simpa [deanonApply, opOf, List.filterMap_cons] using hrest
      | some pf =>
        cases r with
        | none =>
          cases pf <;> simpa [deanonApply, opOf, List.filterMap_cons] using hrest
        | some rf =>
          cases pf with
          | malformed => simp [annCrashes] at ha
          | intLike n =>
            by_cases hin : pageInRange numPages n
            · cases rf with
              | notList => simpa [deanonApply, opOf, List.filterMap_cons, hin] using hrest
              | ofList entries =>
                by_cases h4 : entries.length = 4
                · cases hs : seqOpts entries with
                  | none => simp [annCrashes, hin, h4, hs] at ha
                  | some coords =>
                    simp [deanonApply, opOf, List.filterMap_cons, hin, h4, hs, hrest]
                · simpa [deanonApply, opOf, List.filterMap_cons, hin, h4] using hrest
            · cases rf <;> simpa [deanonApply, opOf, List.filterMap_cons, hin] using hrest

/-- **C10 (amended)**: the distinct "no metadata" error is raised exactly
when the extracted record list is empty; on a non-empty list on which no
record triggers an uncaught conversion error, the call returns the
redaction ops of exactly the well-formed records (entity key present,
integer page in range, 4-element numeric rect) in order, skipping records
with a non-list rect (logged), a rect of another length or an
out-of-range page; but a record whose page value is not coercible to an
integer, or whose 4-element rect holds a non-numeric entry, raises and
aborts the whole call instead of being skipped. -/
theorem C10_deanonymize_behaviour (numPages : Nat) (anns : List DeAnn) :
    (process_anonymized_pdf_to_deanonymize numPages anns = .error .noMetadata ↔
      anns = []) ∧
    ((∀ ann ∈ anns, annCrashes numPages ann = false) → anns ≠ [] →
      process_anonymized_pdf_to_deanonymize numPages anns =
        .ok (anns.filterMap (opOf numPages))) := by
  constructor
  · constructor
    · intro h
      by_cases hne : anns = []
      · exact hne
      · rw [process_anonymized_pdf_to_deanonymize,
          if_neg (by simpa [List.isEmpty_iff] using hne)] at h
        exact absurd h (deanonApply_ne_noMetadata numPages anns)
    · intro h
      subst h
      rfl
  · intro hno hne
    rw [process_anonymized_pdf_to_deanonymize,
      if_neg (by simpa [List.isEmpty_iff] using hne)]
    exact deanonApply_ok numPages anns hno

/-- A well-formed record. -/
def demoGoodAnn : DeAnn :=
  { entity := some (some (utf8Bytes "Jan"))
    page := some (.intLike 1)
    rect := some (.ofList [some 0, some 0, some 1, some 1]) }

/-- A record whose page value is not coercible to an integer. -/
def demoBadPageAnn : DeAnn :=
  { entity := some (some (utf8Bytes "Jan"))
    page := some .malformed
    rect := some (.ofList [some 0, some 0, some 1, some 1]) }

/-- **C10 counterexample**: a record with malformed page data (a value
`int()` cannot convert) is not skipped — it aborts the whole call with an
uncaught conversion error, and the following well-formed record is never
processed; the error is distinct from the no-metadata error, so the claim
"records with malformed page or rect data are skipped … rather than
aborting" fails on the code. -/
theorem C10_malformed_page_aborts :
    process_anonymized_pdf_to_deanonymize 1 [demoBadPageAnn, demoGoodAnn] =
      .error .conversionCrash ∧
    DeanonError.conversionCrash ≠ DeanonError.noMetadata := by
  exact ⟨rfl, by decide⟩

/-- Records exercising the skip paths: non-list rect, 3-element rect,
out-of-range page, missing entity key. -/
def demoDeAnns : List DeAnn :=
  [demoGoodAnn,
   { demoGoodAnn with rect := some .notList },
   { demoGoodAnn with rect := some (.ofList [some 0, some 0, some 1]) },
   { demoGoodAnn with page := some (.intLike 5) },
   { demoGoodAnn with entity := none }]

/-- Witness for C10: on the mixed record list, the call returns exactly
the single well-formed record's op and skips the rest. -/
theorem C10_deanonymize_behaviour_witness :
    process_anonymized_pdf_to_deanonymize 1 demoDeAnns =
      .ok (demoDeAnns.filterMap (opOf 1)) :=
  (C10_deanonymize_behaviour 1 demoDeAnns).2 (by decide) (by decide)

end PresidioNL
